import Mathlib

/-!
# Verification of the TransportationLPSolver core

A shallow embedding of the transportation-LP solving pipeline of the
repository (`src/core/tlp_solver.py`, `src/core/vogels_method.py`,
`src/core/potential_method.py`, and the data containers in
`src/utils/containers.py` / `src/utils/constants.py`), together with
theorems settling the specification claims.

Modelling conventions:
* Python floats are modelled by `F`.  All instances used by the concrete
  theorems carry small integer data, on which IEEE double arithmetic and
  exact rational arithmetic coincide (the pipeline uses only `+`, `-`,
  `min`, `max` and comparisons, never division).
* NumPy's NaN (used by `_calculate_potentials` as the "potential not yet
  assigned" sentinel) is modelled by `Option F` with `none` for NaN, and
  the masked reduced-cost matrix by the three-valued type `MVal`
  (`nan`/`inf`/ordinary value), mirroring IEEE comparison semantics
  (`nan >= x` is false) and `np.argmin`'s behaviour (first NaN wins).
* Python exceptions are modelled with `Except String`: every operation
  that can raise (list indexing, `m, n = arr.shape` unpacking, `min` of an
  empty sequence, `set.remove` of a missing element, dict `KeyError`)
  returns `.error msg`.  Exact exception message texts are irrelevant to
  every claim; they are kept close to CPython's where convenient.
  NumPy broadcasting of mismatched shapes is modelled coarsely: the
  embedding raises unless `problem.costs` has exactly the shape of the
  allocation matrix (the exotic NumPy cases where a mismatched shape
  would still broadcast do not occur in any claim's instances, and any
  raise is mapped to the same `ERROR` result by the caller).
* CPython set/dict iteration: the sets of active row/column indices in
  Vogel's method hold small ints (`hash(i) = i`), for which CPython
  iterates in ascending order; they are modelled as ascending lists.
  The basis set of `(i, j)` tuples is modelled as its insertion-order
  list with duplicates removed; every property proved below about the
  basis is independent of this iteration order.
-/

deriving instance DecidableEq for Except

namespace TLP

/-- Tableau cells, Python `(i, j)` index tuples (row, column). -/
abbrev Cell := Nat × Nat

/-! ## `F`: exact decimal numbers

Python floats are modelled by exact decimal fixed-point numbers
`num / 10 ^ exp`, kept in a canonical form (trailing factors of ten
stripped, zero represented as `⟨0, 0⟩`) so that numeric equality
coincides with structural equality.  Every constant of the program
(`1e-10`, `1e-6`, the integral test data) is such a decimal, and the
pipeline only ever adds, subtracts, multiplies, negates and compares, so
the decimals are closed under everything the code computes; on the
integer-valued data of all concrete instances below, IEEE double
arithmetic computes the same values.  Unlike Mathlib's `ℚ`, the
operations kernel-reduce, so concrete runs of the solver can be settled
by `decide`.  The map `F.toRat` transfers order/field reasoning to `ℚ`
for the universal theorems. -/

/-- An exact decimal number `num / 10 ^ exp`. -/
structure F where
  num : Int
  exp : Nat
deriving DecidableEq, Repr

/-- `10 ^ e` as an integer. -/
def tpow (e : Nat) : Int := Int.ofNat (10 ^ e)

/-- Strip factors of ten: divide `n` by ten (lowering `e`) while
possible.  Structural `fuel` recursion (`fuel = e` always suffices). -/
def stripTens : Nat → Int → Nat → Int × Nat
  | 0, n, e => (n, e)
  | fuel + 1, n, e =>
    if e = 0 then (n, e)
    else if n % 10 = 0 then stripTens fuel (n / 10) (e - 1)
    else (n, e)

/-- Renormalize `n / 10 ^ e` to canonical form. -/
def F.normalize (n : Int) (e : Nat) : F :=
  if n = 0 then ⟨0, 0⟩
  else ⟨(stripTens e n e).1, (stripTens e n e).2⟩

/-- `a ≤ b` by cross-multiplication with the (positive) denominators. -/
def F.le (a b : F) : Prop := a.num * tpow b.exp ≤ b.num * tpow a.exp

/-- `a < b` by cross-multiplication. -/
def F.lt (a b : F) : Prop := a.num * tpow b.exp < b.num * tpow a.exp

/-- Numeric (Python `==`) equality by cross-multiplication. -/
def F.eqv (a b : F) : Prop := a.num * tpow b.exp = b.num * tpow a.exp

instance : LE F := ⟨F.le⟩

instance : LT F := ⟨F.lt⟩

instance F.decLe (a b : F) : Decidable (a ≤ b) :=
  inferInstanceAs (Decidable (a.num * tpow b.exp ≤ b.num * tpow a.exp))

instance F.decLt (a b : F) : Decidable (a < b) :=
  inferInstanceAs (Decidable (a.num * tpow b.exp < b.num * tpow a.exp))

instance F.decEqv (a b : F) : Decidable (F.eqv a b) :=
  inferInstanceAs (Decidable (a.num * tpow b.exp = b.num * tpow a.exp))

instance (n : Nat) : OfNat F n := ⟨⟨Int.ofNat n, 0⟩⟩

/-- Addition (exact; canonical output). -/
def F.add (a b : F) : F :=
  F.normalize (a.num * tpow b.exp + b.num * tpow a.exp) (a.exp + b.exp)

/-- Negation (canonical form is preserved). -/
def F.neg (a : F) : F := ⟨-a.num, a.exp⟩

/-- Subtraction (exact; canonical output). -/
def F.sub (a b : F) : F :=
  F.normalize (a.num * tpow b.exp - b.num * tpow a.exp) (a.exp + b.exp)

/-- Multiplication (exact; canonical output). -/
def F.mul (a b : F) : F := F.normalize (a.num * b.num) (a.exp + b.exp)

/-- Absolute value. -/
def F.abs (a : F) : F := ⟨if a.num < 0 then -a.num else a.num, a.exp⟩

instance : Add F := ⟨F.add⟩

instance : Neg F := ⟨F.neg⟩

instance : Sub F := ⟨F.sub⟩

instance : Mul F := ⟨F.mul⟩

/-- Python `min(a, b)`: `a` if `a <= b` else `b`. -/
instance F.instMin : Min F := ⟨fun a b => if a ≤ b then a else b⟩

/-- Python `max(a, b)`: `a` if `b <= a` else `b`. -/
instance F.instMax : Max F := ⟨fun a b => if b ≤ a then a else b⟩

/-- Python `sum(l)`: a left fold starting from `0`. -/
def F.sum (l : List F) : F := l.foldl F.add 0

/-- The value of an exact decimal as a rational number. -/
def F.toRat (a : F) : ℚ := (a.num : ℚ) / (10 : ℚ) ^ a.exp

/-- `EPSILON = 1e-10`, shared by `VogelsMethod` and `PotentialMethod`. -/
def EPSILON : F := ⟨1, 10⟩

/-! ## Small list/matrix helpers (NumPy / Python list operations) -/

/-- Entry `mat[i][j]` of a nested list, defaulting to `0` out of range.
Used only at indices that are in range for the matrix at hand. -/
def getEntry (mat : List (List F)) (i j : Nat) : F :=
  (mat.getD i []).getD j 0

/-- `mat[i][j] = x` on a nested list (no-op out of range, like the NumPy
stores in this code base, which only ever hit in-range indices). -/
def setEntry (mat : List (List F)) (i j : Nat) (x : F) : List (List F) :=
  mat.set i ((mat.getD i []).set j x)

/-- `np.zeros((m, n))`. -/
def zeros (m n : Nat) : List (List F) :=
  List.replicate m (List.replicate n (0 : F))

/-- Python list indexing `l[i]` for a non-negative index: raises
`IndexError` when out of range. -/
def pyGetQ (l : List F) (i : Nat) : Except String F :=
  if h : i < l.length then .ok (l.get ⟨i, h⟩) else .error "list index out of range"

/-- Sum of row `i` of a matrix (`solution[i][j]` summed over `j`). -/
def rowSum (mat : List (List F)) (i : Nat) : F :=
  F.sum (mat.getD i [])

/-- Sum of column `j` of a matrix (`solution[i][j]` summed over `i`). -/
def colSum (mat : List (List F)) (j : Nat) : F :=
  F.sum (mat.map (fun row => row.getD j 0))

/-- `m, n = np.array(mat).shape` for a 2-d float array built from a nested
Python list: an empty outer list gives a 1-d array and the unpacking
raises, a ragged nested list makes `np.array` itself raise. -/
def npShape2 (mat : List (List F)) : Except String (Nat × Nat) :=
  match mat with
  | [] => .error "not enough values to unpack (expected 2, got 1)"
  | r :: _ =>
    if mat.all (fun row => row.length = r.length) then .ok (mat.length, r.length)
    else .error "inhomogeneous shape after 1 dimensions"

/-- First maximal element of `l` (Python `max(l)` over a nonempty list),
with default `d` for the empty list (call sites pass `-1`, mirroring
`max(penalties.values()) if penalties else -1`). -/
def pyMaxD (l : List F) (d : F) : F :=
  match l with
  | [] => d
  | a :: rest => rest.foldl max a

/-- Python `max(keys, key=lambda k: pens[k])` over an association list in
dict iteration order: the first key attaining the maximal value (later
keys replace the current best only on a strictly greater value). -/
def argmaxKey (pens : List (Nat × F)) : Nat :=
  match pens with
  | [] => 0
  | p :: rest => (rest.foldl (fun best q => if best.2 < q.2 then q else best) p).1

/-- Python `min(l, key=f)` over a nonempty list of indices: the first
index attaining the minimal value of `f`. -/
def argminBy (l : List Nat) (f : Nat → F) : Nat :=
  match l with
  | [] => 0
  | a :: rest => rest.foldl (fun best j => if f j < f best then j else best) a

/-- Insert into an ascending list (helper for `sortQ`). -/
def insertSorted (x : F) : List F → List F
  | [] => [x]
  | y :: ys => if x ≤ y then x :: y :: ys else y :: insertSorted x ys

/-- Ascending insertion sort; used to read off the two smallest costs
exactly as `np.partition(row_costs, 1)[:2]` does. -/
def sortQ (l : List F) : List F :=
  l.foldr insertSorted []

/-- Python `set(l)` for a list of `(i, j)` tuples, as the insertion-order
list of distinct elements. -/
def pySet (l : List Cell) : List Cell :=
  l.foldl (fun acc c => if c ∈ acc then acc else acc ++ [c]) []

/-- First `some` produced by `f` along `l` (the `result = dfs(...);
if result: return result` pattern of the recursive cycle search; every
path the search can return is nonempty, hence truthy). -/
def firstSome (f : α → Option β) : List α → Option β
  | [] => none
  | a :: rest =>
    match f a with
    | some b => some b
    | none => firstSome f rest

/-! ## Data model (`src/utils/containers.py`, `src/utils/constants.py`) -/

/-- `SolutionStatus` enum. -/
inductive SolutionStatus where
  | OPTIMAL
  | INFEASIBLE
  | UNBOUNDED
  | ERROR
  | UNKNOWN
  | PENDING
deriving DecidableEq, Repr

/-- `SolutionStatus.<member>.value`: the enum member's string payload. -/
def SolutionStatus.value : SolutionStatus → String
  | .OPTIMAL => "optimal"
  | .INFEASIBLE => "infeasible"
  | .UNBOUNDED => "unbounded"
  | .ERROR => "error"
  | .UNKNOWN => "unknown"
  | .PENDING => "pending"

/-- Python truthiness of an enum member: always truthy. -/
def SolutionStatus.pyTruthy (_ : SolutionStatus) : Bool := true

/-- `TLPProblem` dataclass: supplies, demands and the cost matrix. -/
structure TLPProblem where
  supply : List F
  demand : List F
  costs : List (List F)
deriving DecidableEq, Repr

/-- `num_suppliers` property (m). -/
def TLPProblem.num_suppliers (p : TLPProblem) : Nat := p.supply.length

/-- `num_consumers` property (n). -/
def TLPProblem.num_consumers (p : TLPProblem) : Nat := p.demand.length

/-- `total_supply` property. -/
def TLPProblem.total_supply (p : TLPProblem) : F := F.sum p.supply

/-- `total_demand` property. -/
def TLPProblem.total_demand (p : TLPProblem) : F := F.sum p.demand

/-- `is_balanced()`: `abs(total_supply - total_demand) < 1e-6`. -/
def TLPProblem.is_balanced (p : TLPProblem) : Bool :=
  decide (F.abs (p.total_supply - p.total_demand) < (⟨1, 6⟩ : F))

/-- `TLPResult` dataclass.  In the source the `status` field, despite its
annotation, always receives the enum member's *string* `.value`
(e.g. `SolutionStatus.OPTIMAL.value`), so it is modelled as a string. -/
structure TLPResult where
  status : String
  optimal_value : Option F := none
  solution : Option (List (List F)) := none
  error_message : Option String := none
deriving DecidableEq, Repr

/-- `TLPResult.is_optimal` property, verbatim from the source: its body is
`return SolutionStatus.OPTIMAL` — the constant enum member, with no
comparison against `self.status`. -/
def TLPResult.is_optimal (_ : TLPResult) : SolutionStatus :=
  SolutionStatus.OPTIMAL

/-- `BFSolution` dataclass. -/
structure BFSolution where
  allocation : List (List F)
  basis : List Cell
  cost : F
deriving DecidableEq, Repr

/-- Python truthiness of a `BFSolution`: a dataclass instance with no
`__bool__`/`__len__` is always truthy. -/
def BFSolution.pyTruthy (_ : BFSolution) : Bool := true

/-! ## Vogel's Approximation Method (`src/core/vogels_method.py`) -/

/-- Penalty of one line: difference of its two smallest active costs,
the single cost itself when only one remains, nothing when none does
(mirrors the `len(row_costs) >= 2` / `== 1` branches). -/
def penaltyOf (cs : List F) : Option F :=
  match sortQ cs with
  | [] => none
  | [c] => some c
  | a :: b :: _ => some (b - a)

/-- `VogelsMethod._calculate_row_penalties`. -/
def calculate_row_penalties (costs : List (List F))
    (active_rows active_cols : List Nat) : List (Nat × F) :=
  active_rows.filterMap (fun i =>
    (penaltyOf (active_cols.map (fun j => getEntry costs i j))).map (fun p => (i, p)))

/-- `VogelsMethod._calculate_col_penalties`. -/
def calculate_col_penalties (costs : List (List F))
    (active_rows active_cols : List Nat) : List (Nat × F) :=
  active_cols.filterMap (fun j =>
    (penaltyOf (active_rows.map (fun i => getEntry costs i j))).map (fun p => (j, p)))

/-- Mutable state of the `while active_rows and active_cols` loop of
`find_initial_bfs`. -/
structure VogelState where
  supply : List F
  demand : List F
  allocation : List (List F)
  basis : List Cell
  active_rows : List Nat
  active_cols : List Nat
deriving DecidableEq, Repr

/-- Cell selection of one Vogel iteration: the row-preferred branch when
`max_row_penalty >= max_col_penalty` picks the first row with maximal
penalty and within it the first cheapest active column; the
column-preferred branch is symmetric. -/
def vogelSelect (costs : List (List F)) (active_rows active_cols : List Nat) : Cell :=
  let row_pen := calculate_row_penalties costs active_rows active_cols
  let col_pen := calculate_col_penalties costs active_rows active_cols
  if pyMaxD (col_pen.map Prod.snd) (-1) ≤ pyMaxD (row_pen.map Prod.snd) (-1) then
    let i := argmaxKey row_pen
    (i, argminBy active_cols (fun j => getEntry costs i j))
  else
    let j := argmaxKey col_pen
    (argminBy active_rows (fun i => getEntry costs i j), j)

/-- State update of one Vogel iteration: allocate
`amount = min(supply[i], demand[j])`, record the basis cell, update the
residuals, and deactivate any exhausted (below `EPSILON`) row/column. -/
def vogelNext (s : VogelState) (ij : Cell) (si dj : F) : VogelState :=
  let amount := min si dj
  { supply := s.supply.set ij.1 (si - amount)
    demand := s.demand.set ij.2 (dj - amount)
    allocation := setEntry s.allocation ij.1 ij.2 amount
    basis := s.basis ++ [ij]
    active_rows :=
      if si - amount < EPSILON then s.active_rows.filter (fun r => r ≠ ij.1)
      else s.active_rows
    active_cols :=
      if dj - amount < EPSILON then s.active_cols.filter (fun c => c ≠ ij.2)
      else s.active_cols }

/-- One execution of the loop body plus the loop condition, structurally
recursive on `fuel`.  Each iteration deactivates at least one row or
column (the `min(supply[i], demand[j])` update zeroes one of the two
residuals exactly), so any `fuel` of at least `m + n + 1` makes the
`fuel = 0` branch unreachable from `find_initial_bfs`. -/
def vogelLoop (costs : List (List F)) : Nat → VogelState → Except String VogelState
  | 0, s => .ok s
  | fuel + 1, s =>
    if s.active_rows.isEmpty || s.active_cols.isEmpty then .ok s
    else
      let row_pen := calculate_row_penalties costs s.active_rows s.active_cols
      let col_pen := calculate_col_penalties costs s.active_rows s.active_cols
      if F.eqv (pyMaxD (row_pen.map Prod.snd) (-1)) (-1) ∧
          F.eqv (pyMaxD (col_pen.map Prod.snd) (-1)) (-1) then .ok s
      else
        let ij : Cell := vogelSelect costs s.active_rows s.active_cols
        match pyGetQ s.supply ij.1 with
        | .error e => .error e
        | .ok si =>
          match pyGetQ s.demand ij.2 with
          | .error e => .error e
          | .ok dj => vogelLoop costs fuel (vogelNext s ij si dj)

/-- The invariant of `vogelLoop` maintained from the initial state of
`find_initial_bfs`: residual vectors keep their lengths, active indices
stay in range, the basis has no repeats and every basic cell has had its
row or its column deactivated, the basis cannot outgrow the number of
deactivations, and unrecorded cells hold allocation `0`. -/
def VogelInv (m n : Nat) (s : VogelState) : Prop :=
  s.supply.length = m ∧ s.demand.length = n ∧
  (∀ i ∈ s.active_rows, i < m) ∧ (∀ j ∈ s.active_cols, j < n) ∧
  s.basis.Nodup ∧
  (∀ c ∈ s.basis, c.1 ∉ s.active_rows ∨ c.2 ∉ s.active_cols) ∧
  s.basis.length + s.active_rows.length + s.active_cols.length ≤ m + n ∧
  (∀ i j, (i, j) ∉ s.basis → getEntry s.allocation i j = 0)

/-- `VogelsMethod.find_initial_bfs`. -/
def find_initial_bfs (problem : TLPProblem) : Except String BFSolution :=
  match npShape2 problem.costs with
  | .error e => .error e
  | .ok (m, n) =>
    match vogelLoop problem.costs (m + n + 1)
        { supply := problem.supply
          demand := problem.demand
          allocation := zeros m n
          basis := []
          active_rows := List.range m
          active_cols := List.range n } with
    | .error e => .error e
    | .ok s =>
      .ok { allocation := s.allocation
            basis := s.basis
            cost := F.sum (s.basis.map (fun c =>
              getEntry s.allocation c.1 c.2 * getEntry problem.costs c.1 c.2)) }

/-! ## Potential (MODI) method (`src/core/potential_method.py`) -/

/-- NumPy 2-d indexing `arr[i, j]` with bounds checking (`IndexError`). -/
def npGetEntry (mat : List (List F)) (i j : Nat) : Except String F :=
  if h : i < mat.length then
    let row := mat.get ⟨i, h⟩
    if h2 : j < row.length then .ok (row.get ⟨j, h2⟩)
    else .error "index out of bounds"
  else .error "index out of bounds"

/-- NumPy 1-d indexing `arr[i]` with bounds checking; the arrays `u`, `v`
hold `Option F` with `none` for NaN. -/
def npGet (l : List (Option F)) (i : Nat) : Except String (Option F) :=
  if h : i < l.length then .ok (l.get ⟨i, h⟩) else .error "index out of bounds"

/-- One pass of the relaxation `for i, j in basis: ...` inside
`_calculate_potentials`: derive the missing one of `u[i]`, `v[j]` from
`u[i] + v[j] = costs[i, j]` whenever exactly one is assigned. -/
def potentialsPass (costs : List (List F)) (basis : List Cell)
    (u v : List (Option F)) :
    Except String (List (Option F) × List (Option F) × Bool) :=
  basis.foldlM (fun acc c =>
    match npGet acc.1 c.1, npGet acc.2.1 c.2, npGetEntry costs c.1 c.2 with
    | .error e, _, _ => .error e
    | _, .error e, _ => .error e
    | _, _, .error e => .error e
    | .ok none, .ok (some w), .ok cij => .ok (acc.1.set c.1 (some (cij - w)), acc.2.1, true)
    | .ok (some w), .ok none, .ok cij => .ok (acc.1, acc.2.1.set c.2 (some (cij - w)), true)
    | .ok _, .ok _, .ok _ => .ok acc) (u, v, false)

/-- The `while updated and iter_count < max_iter` loop of
`_calculate_potentials`, with `fuel` playing the role of
`max_iter - iter_count`. -/
def potentialsLoop (costs : List (List F)) (basis : List Cell) :
    Nat → List (Option F) → List (Option F) →
    Except String (List (Option F) × List (Option F))
  | 0, u, v => .ok (u, v)
  | fuel + 1, u, v =>
    match potentialsPass costs basis u v with
    | .error e => .error e
    | .ok (u', v', updated) =>
      if updated then potentialsLoop costs basis fuel u' v' else .ok (u', v')

/-- `PotentialMethod._calculate_potentials`: `u[0] = 0` anchor (raising
when `m = 0`), then at most `m + n` relaxation passes; unreached
potentials stay `none` (NaN). -/
def calculate_potentials (costs : List (List F)) (basis : List Cell)
    (m n : Nat) : Except String (List (Option F) × List (Option F)) :=
  if m = 0 then .error "index 0 is out of bounds for axis 0 with size 0"
  else
    potentialsLoop costs basis (m + n)
      ((List.replicate m (none : Option F)).set 0 (some 0))
      (List.replicate n (none : Option F))

/-- Entries of the masked reduced-cost matrix
`np.where(non_basic_mask, costs - u - v, np.inf)`:
`inf` for basic cells, NaN when a potential is unassigned, else the
reduced cost. -/
inductive MVal where
  | nan : MVal
  | inf : MVal
  | val : F → MVal
deriving DecidableEq, Repr

/-- `np.minimum` on two masked entries: NaN propagates, `inf` is neutral. -/
def MVal.mmin : MVal → MVal → MVal
  | .nan, _ => .nan
  | _, .nan => .nan
  | .inf, b => b
  | a, .inf => a
  | .val x, .val y => .val (min x y)

/-- `min_delta >= -EPSILON` under IEEE semantics: false for NaN, true for
`inf`. -/
def MVal.geNegEps (a : MVal) : Bool :=
  match a with
  | .nan => false
  | .inf => true
  | .val x => decide (-EPSILON ≤ x)

/-- Strict `<` on non-NaN masked entries, for `np.argmin`'s scan. -/
def MVal.mlt : MVal → MVal → Bool
  | .nan, _ => false
  | _, .nan => false
  | .inf, _ => false
  | .val _, .inf => true
  | .val x, .val y => decide (x < y)

/-- Semantic value of a masked entry for order reasoning in proofs
(`inf` is top; `nan`, never compared through this map on NaN-free lists,
is sent to top as well). -/
def MVal.toT : MVal → WithTop ℚ
  | .nan => ⊤
  | .inf => ⊤
  | .val x => (x.toRat : WithTop ℚ)

/-- One step of `np.argmin`'s scan: the accumulator holds
(best index so far, next index, best value so far); a strictly smaller
value replaces the best, so the first minimum wins. -/
def argminStep (acc : Nat × Nat × MVal) (a : MVal) : Nat × Nat × MVal :=
  if MVal.mlt a acc.2.2 then (acc.2.1, acc.2.1 + 1, a)
  else (acc.1, acc.2.1 + 1, acc.2.2)

/-- `np.argmin` over the flattened masked matrix: index of the first NaN
if any is present, otherwise the first index attaining the minimum. -/
def npArgmin (l : List MVal) : Nat :=
  match l.findIdx? (fun a => a = MVal.nan) with
  | some k => k
  | none => (l.foldl argminStep (0, 0, MVal.inf)).1

/-- The masked reduced cost `deltas_masked[i, j]` of one cell:
`np.inf` for cells in the basis, NaN when `u[i]` or `v[j]` is
unassigned, `costs[i][j] - u[i] - v[j]` otherwise. -/
def maskedDelta (costs : List (List F)) (u v : List (Option F))
    (basis : List Cell) (i j : Nat) : MVal :=
  if (i, j) ∈ basis then .inf
  else
    match u.getD i none, v.getD j none with
    | some a, some b => .val (getEntry costs i j - a - b)
    | _, _ => .nan

/-- Row-major list of all cells of an `m × n` tableau (the flattening
order used by `np.argmin`/`np.unravel_index`). -/
def rowMajorCells (m n : Nat) : List Cell :=
  (List.range m).flatMap (fun i => (List.range n).map (fun j => (i, j)))

/-- The flattened masked reduced-cost matrix `deltas_masked`. -/
def maskedList (costs : List (List F)) (u v : List (Option F))
    (basis : List Cell) (m n : Nat) : List MVal :=
  (rowMajorCells m n).map (fun c => maskedDelta costs u v basis c.1 c.2)

/-- `np.min(deltas_masked)`: raises on an empty (zero-size) array. -/
def npMin (l : List MVal) : Except String MVal :=
  match l with
  | [] => .error "zero-size array to reduction operation minimum which has no identity"
  | a :: rest => .ok (rest.foldl MVal.mmin a)

/-- `tuple(np.unravel_index(np.argmin(deltas_masked), (m, n)))`. -/
def enteringCellOf (costs : List (List F)) (u v : List (Option F))
    (basis : List Cell) (m n : Nat) : Cell :=
  let k := npArgmin (maskedList costs u v basis m n)
  (k / n, k % n)

/-! ### Cycle search (`PotentialMethod._find_cycle`) -/

/-- The inner recursive `dfs` of `_find_cycle`, structurally recursive on
`fuel`.  `maxLen = 2 * (m + n)` is the source's path-length bound; since
the path grows by one cell per recursive call and the bound cuts any
longer path before recursing, a starting `fuel` of `2 * (m + n) + 2`
makes the `fuel = 0` branch unreachable.  `visited.copy()` per branch is
automatic with persistent lists. -/
def dfs (rows_cells cols_cells : List (List Nat)) (target : Cell)
    (maxLen : Nat) :
    Nat → Cell → List Cell → List Cell → Bool → Option (List Cell)
  | 0, _, _, _, _ => none
  | fuel + 1, curr, path, visited, is_row =>
    if 4 ≤ path.length ∧
        (if is_row then
          curr.1 = target.1 ∧ target.2 ∈ rows_cells.getD curr.1 []
        else
          curr.2 = target.2 ∧ target.1 ∈ cols_cells.getD curr.2 []) then
      some path
    else if curr ∈ visited then none
    else if maxLen < path.length then none
    else
      let visited' := visited ++ [curr]
      if is_row then
        firstSome (fun next_j =>
          if next_j = curr.2 then none
          else
            dfs rows_cells cols_cells target maxLen fuel (curr.1, next_j)
              (path ++ [(curr.1, next_j)]) visited' false)
          (rows_cells.getD curr.1 [])
      else
        firstSome (fun next_i =>
          if next_i = curr.1 then none
          else
            dfs rows_cells cols_cells target maxLen fuel (next_i, curr.2)
              (path ++ [(next_i, curr.2)]) visited' true)
          (cols_cells.getD curr.2 [])

/-- Build `rows_cells`: `{i: [] for i in range(m)}` then append `j` for
each basis cell `(i, j)` (a `KeyError` for an out-of-range row). -/
def buildRowsCells (basis : List Cell) (m : Nat) : Except String (List (List Nat)) :=
  basis.foldlM (fun acc c =>
    if c.1 < m then .ok (acc.set c.1 (acc.getD c.1 [] ++ [c.2]))
    else .error "KeyError") (List.replicate m ([] : List Nat))

/-- Build `cols_cells` symmetrically. -/
def buildColsCells (basis : List Cell) (n : Nat) : Except String (List (List Nat)) :=
  basis.foldlM (fun acc c =>
    if c.2 < n then .ok (acc.set c.2 (acc.getD c.2 [] ++ [c.1]))
    else .error "KeyError") (List.replicate n ([] : List Nat))

/-- `PotentialMethod._find_cycle`.  The basis set's iteration order is
taken to be its (deduplicated) insertion order. -/
def find_cycle (entering_cell : Cell) (basis : List Cell) (m n : Nat) :
    Except String (Option (List Cell)) :=
  match buildRowsCells basis m, buildColsCells basis n with
  | .error e, _ => .error e
  | _, .error e => .error e
  | .ok rc0, .ok cc0 =>
    if entering_cell.1 < m ∧ entering_cell.2 < n then
      let rows_cells := rc0.set entering_cell.1
        (rc0.getD entering_cell.1 [] ++ [entering_cell.2])
      let cols_cells := cc0.set entering_cell.2
        (cc0.getD entering_cell.2 [] ++ [entering_cell.1])
      match dfs rows_cells cols_cells entering_cell (2 * (m + n))
          (2 * (m + n) + 2) entering_cell [entering_cell] [] true with
      | some cycle => .ok (some (cycle ++ [entering_cell]))
      | none => .ok none
    else .error "KeyError"

/-! ### Pivot update (`PotentialMethod._update_solution`) -/

/-- `cycle[1::2]`: the `-`-labelled (odd-position) cells. -/
def oddPositions (l : List Cell) : List Cell :=
  (l.enum.filter (fun ic => ic.1 % 2 = 1)).map Prod.snd

/-- `PotentialMethod._update_solution`: strip the duplicated final cell,
compute `theta` (with the degenerate fallback to the smallest strictly
positive `-`-allocation, or `EPSILON`), add/subtract `theta` along the
cycle, zero out and drop the first `-`-cell that fell below `EPSILON`,
and add the entering cell to the basis. -/
def update_solution (allocation : List (List F)) (basis : List Cell)
    (cycle : List Cell) : Except String (List (List F) × List Cell) :=
  let cyc :=
    if 1 < cycle.length ∧ cycle.headD (0, 0) = cycle.getLastD (0, 0) then
      cycle.dropLast
    else cycle
  let minus_positions := oddPositions cyc
  match minus_positions.map (fun c => getEntry allocation c.1 c.2) with
  | [] => .error "min() arg is an empty sequence"
  | a :: rest =>
    let theta0 := rest.foldl min a
    let theta :=
      if theta0 < EPSILON then
        match (a :: rest).filter (fun x => EPSILON < x) with
        | [] => EPSILON
        | p :: ps => ps.foldl min p
      else theta0
    let alloc1 := cyc.enum.foldl (fun acc ic =>
      if ic.1 % 2 = 0 then
        setEntry acc ic.2.1 ic.2.2 (getEntry acc ic.2.1 ic.2.2 + theta)
      else
        setEntry acc ic.2.1 ic.2.2 (getEntry acc ic.2.1 ic.2.2 - theta)) allocation
    match minus_positions.find? (fun c => getEntry alloc1 c.1 c.2 < EPSILON) with
    | some leaving =>
      if leaving ∈ basis then
        let basis1 := basis.filter (fun b => b ≠ leaving)
        .ok (setEntry alloc1 leaving.1 leaving.2 0,
          if cyc.headD (0, 0) ∈ basis1 then basis1 else basis1 ++ [cyc.headD (0, 0)])
      else .error "KeyError"
    | none =>
      .ok (alloc1,
        if cyc.headD (0, 0) ∈ basis then basis else basis ++ [cyc.headD (0, 0)])

/-! ### Main MODI loop (`PotentialMethod.solve_from_bfs`) -/

/-- `np.sum(allocation * costs)` for same-shaped matrices. -/
def sumProduct (allocation costs : List (List F)) (m n : Nat) : F :=
  F.sum ((rowMajorCells m n).map (fun c =>
    getEntry allocation c.1 c.2 * getEntry costs c.1 c.2))

/-- The `for _ in range(self.max_iterations)` loop of `solve_from_bfs`:
one iteration computes potentials, reduced costs, tests optimality,
selects the entering cell, finds a cycle and pivots.  `maxIter` is kept
for the final error message. -/
def modiLoop (maxIter : Nat) (costs : List (List F)) (m n : Nat) :
    Nat → List (List F) → List Cell → Except String TLPResult
  | 0, _, _ =>
    .ok { status := SolutionStatus.ERROR.value
          error_message := some ("Max iterations (" ++ toString maxIter ++ ") reached") }
  | fuel + 1, allocation, basis =>
    match calculate_potentials costs basis m n with
    | .error e => .error e
    | .ok (u, v) =>
      -- `deltas = costs - u[:, None] - v[None, :]` broadcasts; modelled for
      -- costs of exactly the allocation's shape, raising otherwise.
      if costs.length = m ∧ costs.all (fun r => r.length = n) then
        match npMin (maskedList costs u v basis m n) with
        | .error e => .error e
        | .ok min_delta =>
          if min_delta.geNegEps then
            .ok { status := SolutionStatus.OPTIMAL.value
                  optimal_value := some (sumProduct allocation costs m n)
                  solution := some allocation }
          else
            let entering_cell := enteringCellOf costs u v basis m n
            match find_cycle entering_cell basis m n with
            | .error e => .error e
            | .ok none =>
              .ok { status := SolutionStatus.ERROR.value
                    error_message := some "Could not find cycle for improvement" }
            | .ok (some cycle) =>
              match update_solution allocation basis cycle with
              | .error e => .error e
              | .ok (allocation', basis') => modiLoop maxIter costs m n fuel allocation' basis'
      else .error "operands could not be broadcast together"

/-- The body of `solve_from_bfs` inside its `try`: array conversions and
shape unpacking, then the iteration loop. -/
def modiCore (max_iterations : Nat) (problem : TLPProblem)
    (initial_solution : BFSolution) : Except String TLPResult :=
  match npShape2 initial_solution.allocation with
  | .error e => .error e
  | .ok (m, n) =>
    if problem.costs.all (fun r => r.length = (problem.costs.headD []).length) then
      modiLoop max_iterations problem.costs m n max_iterations
        initial_solution.allocation (pySet initial_solution.basis)
    else .error "inhomogeneous shape after 1 dimensions"

/-- `PotentialMethod.solve_from_bfs` (with the constructor's default
`max_iterations` supplied by the caller): the `try`/`except` wrapper
turning any internal exception into an `ERROR` result. -/
def solve_from_bfs (max_iterations : Nat) (problem : TLPProblem)
    (initial_solution : BFSolution) : TLPResult :=
  match modiCore max_iterations problem initial_solution with
  | .ok r => r
  | .error e =>
    { status := SolutionStatus.ERROR.value
      error_message := some ("Error in MODI method: " ++ e) }

/-! ## Solver orchestrator (`src/core/tlp_solver.py`) -/

/-- `TLPSolver._balance_problem`: append a zero-cost dummy consumer when
supply exceeds demand, else a zero-cost dummy supplier. -/
def balance_problem (problem : TLPProblem) : TLPProblem :=
  if problem.total_demand < problem.total_supply then
    { supply := problem.supply
      demand := problem.demand ++ [problem.total_supply - problem.total_demand]
      costs := problem.costs.map (fun row => row ++ [0]) }
  else
    { supply := problem.supply ++ [problem.total_demand - problem.total_supply]
      demand := problem.demand
      costs := problem.costs ++ [List.replicate problem.num_consumers (0 : F)] }

/-- The BFS-then-optimize part of `TLPSolver.solve`, acting on the
(possibly already balanced) problem.  `find_initial_bfs` always returns
a truthy `BFSolution` when it does not raise, so the
`if not initial_solution` branch is dead code. -/
def runPipeline (problem : TLPProblem) : Except String TLPResult :=
  match find_initial_bfs problem with
  | .error e => .error e
  | .ok initial_solution =>
    if initial_solution.pyTruthy = false then
      .ok { status := SolutionStatus.INFEASIBLE.value
            error_message := some "No initial BFS found" }
    else .ok (solve_from_bfs 1000 problem initial_solution)

/-- The body of `TLPSolver.solve` inside its `try`: balance if needed,
then run the pipeline.  `main.py` wires `VogelsMethod` as the BFS finder
and `PotentialMethod()` (default `max_iterations = 1000`) as the
algorithm. -/
def solveCore (problem : TLPProblem) : Except String TLPResult :=
  runPipeline (if problem.is_balanced then problem else balance_problem problem)

/-- `TLPSolver.solve`: the `try`/`except` wrapper mapping any exception
to an `ERROR` result. -/
def solve (problem : TLPProblem) : TLPResult :=
  match solveCore problem with
  | .ok r => r
  | .error e =>
    { status := SolutionStatus.ERROR.value
      error_message := some ("Solver error: " ++ e) }

/-! ## Concrete instances used by the claim theorems -/

/-- The literal Vogel example of the spec: supply=[10,20], demand=[15,5,10],
costs=[[2,3,1],[4,1,5]]. -/
def pC8 : TLPProblem :=
  { supply := [10, 20], demand := [15, 5, 10], costs := [[2, 3, 1], [4, 1, 5]] }

/-- A balanced problem whose Vogel BFS contains the degenerate
zero-allocation basis cell (0,0) (row 0 has zero supply), driving the
optimizer through a degenerate-fallback pivot. -/
def pCons : TLPProblem :=
  { supply := [0, 9, 6], demand := [4, 11], costs := [[-20, 0], [10, 35], [12, 13]] }

/-- The solution matrix `solve` returns on `pCons`. -/
def solCons : List (List F) := [[0, 5], [9, 0], [0, 6]]

/-- The problem of the repository's `test_invalid_basis`: used with the
disconnected basis `bfsDisc` below. -/
def pDisc : TLPProblem :=
  { supply := [20, 30], demand := [25, 25], costs := [[2, 3], [4, 1]] }

/-- A degenerate, disconnected basis for `pDisc`: the potentials of row 1
and column 1 cannot be derived from `u[0] = 0`. -/
def bfsDisc : BFSolution :=
  { allocation := [[20, 0], [5, 25]], basis := [(0, 0), (1, 1)], cost := 145 }

/-- The basis on which the cycle search returns an odd cycle: it contains
the 4-cycle {(0,1),(1,1),(1,2),(0,2)} but no cell in column 0, so no even
alternating cycle through the entering cell (0,0) exists. -/
def basisOdd : List Cell := [(0, 1), (1, 1), (1, 2), (0, 2)]

/-- The cycle the search returns on `basisOdd` (5 distinct cells). -/
def cycleOdd : List Cell := [(0, 0), (0, 1), (1, 1), (1, 2), (0, 2), (0, 0)]

/-- Basis for the degenerate-pivot counterexample of the update step. -/
def basisNeg : List Cell := [(0, 1), (1, 1), (1, 0)]

/-- Allocation for the degenerate-pivot counterexample: non-negative, with
a zero allocation at the `-`-cell (1,0). -/
def allocNeg : List (List F) := [[0, 5], [0, 7]]

/-- The cycle the cycle search produces for entering cell (0,0) on
`basisNeg`. -/
def cycleNeg : List Cell := [(0, 0), (0, 1), (1, 1), (1, 0), (0, 0)]

/-- The structurally malformed problem with empty supply and demand. -/
def pEmpty : TLPProblem := { supply := [], demand := [], costs := [] }

/-- An unbalanced witness problem (total supply 30, total demand 20). -/
def pUnbal : TLPProblem :=
  { supply := [10, 20], demand := [12, 8], costs := [[1, 2], [3, 4]] }

/-! ## Bridge lemmas for `F`

Everything needed to transfer order/field facts between the computable
decimals and `ℚ`. -/

theorem tpow_pos (e : Nat) : 0 < tpow e :=
  Int.ofNat_pos.mpr (pow_pos (by norm_num) e)

theorem tpow_cast (e : Nat) : ((tpow e : Int) : ℚ) = (10 : ℚ) ^ e := by
  simp [tpow]

theorem stripTens_spec (fuel : Nat) : ∀ (n : Int) (e : Nat),
    ((stripTens fuel n e).1 : ℚ) / (10 : ℚ) ^ (stripTens fuel n e).2 =
      (n : ℚ) / (10 : ℚ) ^ e := by
  induction fuel with
  | zero => intro n e; rfl
  | succ fuel ih =>
    intro n e
    by_cases he : e = 0
    · simp [stripTens, he]
    · by_cases hd : n % 10 = 0
      · have hdvd : (10 : Int) ∣ n := Int.dvd_of_emod_eq_zero hd
        obtain ⟨k, rfl⟩ := hdvd
        obtain ⟨e', rfl⟩ := Nat.exists_eq_succ_of_ne_zero he
        have hstep : stripTens (fuel + 1) (10 * k) (e' + 1) =
            stripTens fuel (10 * k / 10) (e' + 1 - 1) := by
          simp [stripTens, hd]
        rw [hstep]
        have hk : (10 : Int) * k / 10 = k := Int.mul_ediv_cancel_left k (by norm_num)
        rw [hk, Nat.add_sub_cancel, ih]
        push_cast
        rw [pow_succ]
        rw [mul_comm (10 : ℚ) (k : ℚ), mul_div_mul_right _ _ (by norm_num : (10 : ℚ) ≠ 0)]
      · simp [stripTens, he, hd]

theorem F.toRat_normalize (n : Int) (e : Nat) :
    (F.normalize n e).toRat = (n : ℚ) / (10 : ℚ) ^ e := by
  unfold F.normalize
  split
  · simp_all [F.toRat]
  · exact stripTens_spec e n e

theorem F.toRat_ofNat (n : Nat) : (OfNat.ofNat n : F).toRat = (n : ℚ) := by
  show ((Int.ofNat n : ℚ)) / (10 : ℚ) ^ (0 : Nat) = (n : ℚ)
  simp

theorem F.toRat_zero : (0 : F).toRat = 0 := by
  simpa using F.toRat_ofNat 0

theorem F.toRat_add (a b : F) : (a + b).toRat = a.toRat + b.toRat := by
  show (F.add a b).toRat = _
  unfold F.add
  rw [F.toRat_normalize]
  unfold F.toRat
  push_cast [tpow_cast]
  rw [pow_add]
  field_simp

theorem F.toRat_sub (a b : F) : (a - b).toRat = a.toRat - b.toRat := by
  show (F.sub a b).toRat = _
  unfold F.sub
  rw [F.toRat_normalize]
  unfold F.toRat
  push_cast [tpow_cast]
  rw [pow_add]
  field_simp
  ring

theorem F.toRat_mul (a b : F) : (a * b).toRat = a.toRat * b.toRat := by
  show (F.mul a b).toRat = _
  unfold F.mul
  rw [F.toRat_normalize]
  unfold F.toRat
  push_cast
  rw [pow_add]
  field_simp

theorem F.toRat_neg (a : F) : (-a).toRat = -a.toRat := by
  show (F.neg a).toRat = _
  unfold F.neg F.toRat
  push_cast
  ring

theorem F.toRat_abs (a : F) : (F.abs a).toRat = |a.toRat| := by
  unfold F.abs F.toRat
  rcases lt_or_le a.num 0 with h | h
  · rw [if_pos h, abs_div]
    rw [abs_of_nonpos (by exact_mod_cast h.le), abs_of_nonneg (by positivity)]
    push_cast
    ring
  · rw [if_neg (not_lt.mpr h), abs_div]
    rw [abs_of_nonneg (by exact_mod_cast h), abs_of_nonneg (by positivity)]

theorem F.le_iff (a b : F) : a ≤ b ↔ a.toRat ≤ b.toRat := by
  show F.le a b ↔ _
  unfold F.le F.toRat
  rw [div_le_div_iff₀ (by positivity) (by positivity), ← tpow_cast, ← tpow_cast]
  exact_mod_cast Iff.rfl

theorem F.lt_iff (a b : F) : a < b ↔ a.toRat < b.toRat := by
  show F.lt a b ↔ _
  unfold F.lt F.toRat
  rw [div_lt_div_iff₀ (by positivity) (by positivity), ← tpow_cast, ← tpow_cast]
  exact_mod_cast Iff.rfl

theorem F.eqv_iff (a b : F) : F.eqv a b ↔ a.toRat = b.toRat := by
  unfold F.eqv F.toRat
  rw [div_eq_div_iff (by positivity) (by positivity), ← tpow_cast, ← tpow_cast]
  exact_mod_cast Iff.rfl

theorem F.min_def (a b : F) : min a b = if a ≤ b then a else b := rfl

theorem F.max_def (a b : F) : max a b = if b ≤ a then a else b := rfl

theorem F.min_choice (a b : F) : min a b = a ∨ min a b = b := by
  rw [F.min_def]
  split
  · exact Or.inl rfl
  · exact Or.inr rfl

theorem F.toRat_EPSILON : EPSILON.toRat = 1 / 10 ^ 10 := by
  unfold EPSILON F.toRat
  norm_num

theorem F.sub_self_lt_EPSILON (a : F) : a - a < EPSILON := by
  rw [F.lt_iff, F.toRat_sub, F.toRat_EPSILON]
  norm_num

theorem F.sum_append_singleton (l : List F) (x : F) :
    F.sum (l ++ [x]) = F.sum l + x := by
  show (l ++ [x]).foldl F.add 0 = F.add (l.foldl F.add 0) x
  rw [List.foldl_append]
  rfl

/-! ## Lemmas about the Vogel loop (for C10) -/

theorem getEntry_setEntry_ne (mat : List (List F)) (i j i' j' : Nat) (x : F)
    (h : ¬(i' = i ∧ j' = j)) :
    getEntry (setEntry mat i j x) i' j' = getEntry mat i' j' := by
  unfold getEntry setEntry
  simp only [List.getD_eq_getElem?_getD]
  rcases eq_or_ne i' i with rfl | hi
  · have hj : j ≠ j' := fun hj => h ⟨rfl, hj.symm⟩
    rw [List.getElem?_set_self']
    cases hmat : mat[i']? with
    | none => simp
    | some row => simp [List.getElem?_set_ne hj, hmat]
  · rw [List.getElem?_set_ne (Ne.symm hi)]

theorem getEntry_zeros (m n i j : Nat) : getEntry (zeros m n) i j = 0 := by
  unfold getEntry zeros
  simp only [List.getD_eq_getElem?_getD, List.getElem?_replicate]
  by_cases hi : i < m <;> by_cases hj : j < n <;> simp [hi, hj]

theorem insertSorted_length (x : F) (l : List F) :
    (insertSorted x l).length = l.length + 1 := by
  induction l with
  | nil => rfl
  | cons y ys ih =>
    unfold insertSorted
    split
    · rfl
    · simpa using ih

theorem sortQ_length (l : List F) : (sortQ l).length = l.length := by
  unfold sortQ
  induction l with
  | nil => rfl
  | cons x xs ih => simp [List.foldr_cons, insertSorted_length, ih]

theorem penaltyOf_isSome (cs : List F) (h : cs ≠ []) : ∃ p, penaltyOf cs = some p := by
  unfold penaltyOf
  have hlen : (sortQ cs).length = cs.length := sortQ_length cs
  match hs : sortQ cs with
  | [] =>
    rw [hs] at hlen
    exact absurd (List.length_eq_zero.mp hlen.symm) h
  | [c] => exact ⟨c, rfl⟩
  | a :: b :: rest => exact ⟨b - a, rfl⟩

theorem calculate_row_penalties_ne_nil (costs : List (List F))
    (active_rows active_cols : List Nat) (har : active_rows ≠ [])
    (hac : active_cols ≠ []) :
    calculate_row_penalties costs active_rows active_cols ≠ [] := by
  unfold calculate_row_penalties
  match active_rows with
  | [] => exact absurd rfl har
  | a :: t =>
    obtain ⟨p, hp⟩ := penaltyOf_isSome (active_cols.map (fun j => getEntry costs a j))
      (by simpa using hac)
    simp [List.filterMap_cons, hp]

theorem calculate_col_penalties_ne_nil (costs : List (List F))
    (active_rows active_cols : List Nat) (har : active_rows ≠ [])
    (hac : active_cols ≠ []) :
    calculate_col_penalties costs active_rows active_cols ≠ [] := by
  unfold calculate_col_penalties
  match active_cols with
  | [] => exact absurd rfl hac
  | a :: t =>
    obtain ⟨p, hp⟩ := penaltyOf_isSome (active_rows.map (fun i => getEntry costs i a))
      (by simpa using har)
    simp [List.filterMap_cons, hp]

theorem mem_keys_calculate_row_penalties (costs : List (List F))
    (active_rows active_cols : List Nat) (pr : Nat × F)
    (h : pr ∈ calculate_row_penalties costs active_rows active_cols) :
    pr.1 ∈ active_rows := by
  unfold calculate_row_penalties at h
  obtain ⟨a, ha, hfa⟩ := List.mem_filterMap.mp h
  obtain ⟨p, _, hap⟩ := Option.map_eq_some'.mp hfa
  rw [← hap]
  exact ha

theorem mem_keys_calculate_col_penalties (costs : List (List F))
    (active_rows active_cols : List Nat) (pr : Nat × F)
    (h : pr ∈ calculate_col_penalties costs active_rows active_cols) :
    pr.1 ∈ active_cols := by
  unfold calculate_col_penalties at h
  obtain ⟨a, ha, hfa⟩ := List.mem_filterMap.mp h
  obtain ⟨p, _, hap⟩ := Option.map_eq_some'.mp hfa
  rw [← hap]
  exact ha

theorem foldl_best_mem {α : Type} (f : α → α → α)
    (hf : ∀ a b, f a b = a ∨ f a b = b) (p : α) (rest : List α) :
    rest.foldl f p ∈ p :: rest := by
  induction rest generalizing p with
  | nil => simp
  | cons a l ih =>
    simp only [List.foldl_cons]
    have := ih (f p a)
    rcases List.mem_cons.mp this with h | h
    · rw [h]
      rcases hf p a with h2 | h2 <;> rw [h2] <;> simp
    · simp [h]

theorem argmaxKey_mem (pens : List (Nat × F)) (h : pens ≠ []) :
    argmaxKey pens ∈ pens.map Prod.fst := by
  unfold argmaxKey
  match pens with
  | [] => exact absurd rfl h
  | p :: rest =>
    have := foldl_best_mem (fun best q => if best.2 < q.2 then q else best)
      (fun a b => by by_cases hab : a.2 < b.2 <;> simp [hab]) p rest
    exact List.mem_map_of_mem Prod.fst this

theorem argminBy_mem (l : List Nat) (f : Nat → F) (h : l ≠ []) :
    argminBy l f ∈ l := by
  unfold argminBy
  match l with
  | [] => exact absurd rfl h
  | a :: rest =>
    exact foldl_best_mem (fun best j => if f j < f best then j else best)
      (fun a b => by by_cases hab : f b < f a <;> simp [hab]) a rest

theorem vogelSelect_mem (costs : List (List F)) (active_rows active_cols : List Nat)
    (har : active_rows ≠ []) (hac : active_cols ≠ []) :
    (vogelSelect costs active_rows active_cols).1 ∈ active_rows ∧
    (vogelSelect costs active_rows active_cols).2 ∈ active_cols := by
  unfold vogelSelect
  dsimp only
  split
  · constructor
    · obtain ⟨pr, hpr, heq⟩ := List.mem_map.mp
        (argmaxKey_mem _ (calculate_row_penalties_ne_nil costs _ _ har hac))
      rw [← heq]
      exact mem_keys_calculate_row_penalties costs _ _ pr hpr
    · exact argminBy_mem _ _ hac
  · constructor
    · exact argminBy_mem _ _ har
    · obtain ⟨pr, hpr, heq⟩ := List.mem_map.mp
        (argmaxKey_mem _ (calculate_col_penalties_ne_nil costs _ _ har hac))
      rw [← heq]
      exact mem_keys_calculate_col_penalties costs _ _ pr hpr

theorem length_filter_ne_lt (l : List Nat) (i : Nat) (h : i ∈ l) :
    (l.filter (fun r => r ≠ i)).length < l.length := by
  induction l with
  | nil => cases h
  | cons a t ih =>
    rcases List.mem_cons.mp h with rfl | hmem
    · simp only [List.filter_cons, decide_not, decide_eq_true_eq]
      rw [if_neg (by simp)]
      exact Nat.lt_succ_of_le (List.length_filter_le _ t)
    · by_cases ha : a = i
      · subst ha
        simp only [List.filter_cons]
        rw [if_neg (by simp)]
        exact Nat.lt_succ_of_le (List.length_filter_le _ t)
      · simp only [List.filter_cons]
        rw [if_pos (by simp [ha])]
        simpa using Nat.succ_lt_succ (ih hmem)

/-- One Vogel iteration preserves the invariant: the allocated cell had
both its row and its column active, so it is new to the basis, and the
`min(supply[i], demand[j])` update zeroes one of the two residuals
exactly, deactivating that line. -/
theorem vogelNext_inv (m n : Nat) (s : VogelState) (hs : VogelInv m n s)
    (ij : Cell) (si dj : F)
    (hi : ij.1 ∈ s.active_rows) (hj : ij.2 ∈ s.active_cols) :
    VogelInv m n (vogelNext s ij si dj) ∧
    (vogelNext s ij si dj).basis.length = s.basis.length + 1 := by
  obtain ⟨hsl, hdl, harm, hacn, hnodup, hinact, hcount, hzero⟩ := hs
  have hijnot : ij ∉ s.basis := by
    intro hmem
    rcases hinact ij hmem with hcase | hcase
    · exact hcase hi
    · exact hcase hj
  have hsubr : ∀ x, x ∈ (vogelNext s ij si dj).active_rows → x ∈ s.active_rows := by
    intro x hx
    unfold vogelNext at hx
    dsimp only at hx
    split at hx
    · exact (List.mem_filter.mp hx).1
    · exact hx
  have hsubc : ∀ x, x ∈ (vogelNext s ij si dj).active_cols → x ∈ s.active_cols := by
    intro x hx
    unfold vogelNext at hx
    dsimp only at hx
    split at hx
    · exact (List.mem_filter.mp hx).1
    · exact hx
  have hdrop : ij.1 ∉ (vogelNext s ij si dj).active_rows ∨
      ij.2 ∉ (vogelNext s ij si dj).active_cols := by
    rcases F.min_choice si dj with hmin | hmin
    · left
      have hcond : si - min si dj < EPSILON := by
        rw [hmin]; exact F.sub_self_lt_EPSILON si
      unfold vogelNext
      dsimp only
      rw [if_pos hcond]
      intro hmem
      simp [List.mem_filter] at hmem
    · right
      have hcond : dj - min si dj < EPSILON := by
        rw [hmin]; exact F.sub_self_lt_EPSILON dj
      unfold vogelNext
      dsimp only
      rw [if_pos hcond]
      intro hmem
      simp [List.mem_filter] at hmem
  have hlensum : (vogelNext s ij si dj).active_rows.length +
      (vogelNext s ij si dj).active_cols.length + 1 ≤
      s.active_rows.length + s.active_cols.length := by
    have hle_r : (vogelNext s ij si dj).active_rows.length ≤ s.active_rows.length := by
      unfold vogelNext
      dsimp only
      split
      · exact List.length_filter_le _ _
      · exact le_refl _
    have hle_c : (vogelNext s ij si dj).active_cols.length ≤ s.active_cols.length := by
      unfold vogelNext
      dsimp only
      split
      · exact List.length_filter_le _ _
      · exact le_refl _
    rcases F.min_choice si dj with hmin | hmin
    · have hcond : si - min si dj < EPSILON := by
        rw [hmin]; exact F.sub_self_lt_EPSILON si
      have hlt : (vogelNext s ij si dj).active_rows.length < s.active_rows.length := by
        unfold vogelNext
        dsimp only
        rw [if_pos hcond]
        exact length_filter_ne_lt _ _ hi
      omega
    · have hcond : dj - min si dj < EPSILON := by
        rw [hmin]; exact F.sub_self_lt_EPSILON dj
      have hlt : (vogelNext s ij si dj).active_cols.length < s.active_cols.length := by
        unfold vogelNext
        dsimp only
        rw [if_pos hcond]
        exact length_filter_ne_lt _ _ hj
      omega
  have hblen : (vogelNext s ij si dj).basis.length = s.basis.length + 1 := by
    unfold vogelNext
    dsimp only
    simp
  refine ⟨⟨?_, ?_, ?_, ?_, ?_, ?_, ?_, ?_⟩, hblen⟩
  · unfold vogelNext
    dsimp only
    simpa using hsl
  · unfold vogelNext
    dsimp only
    simpa using hdl
  · exact fun i hi2 => harm i (hsubr i hi2)
  · exact fun j hj2 => hacn j (hsubc j hj2)
  · show (s.basis ++ [ij]).Nodup
    exact hnodup.append (List.nodup_singleton ij)
      (fun a ha hmem => hijnot (by simpa using (List.mem_singleton.mp hmem) ▸ ha))
  · intro c hc
    have : c ∈ s.basis ++ [ij] := hc
    rcases List.mem_append.mp this with hmem | hmem
    · rcases hinact c hmem with hcase | hcase
      · exact Or.inl (fun hx => hcase (hsubr _ hx))
      · exact Or.inr (fun hx => hcase (hsubc _ hx))
    · rw [List.mem_singleton.mp hmem]
      exact hdrop
  · rw [hblen]
    omega
  · intro i j hnot
    have hnotb : (i, j) ∉ s.basis := by
      intro hmem
      exact hnot (by
        show (i, j) ∈ s.basis ++ [ij]
        exact List.mem_append.mpr (Or.inl hmem))
    have hne : ¬(i = ij.1 ∧ j = ij.2) := by
      rintro ⟨rfl, rfl⟩
      exact hnot (by
        show (ij.1, ij.2) ∈ s.basis ++ [ij]
        exact List.mem_append.mpr (Or.inr (by simp)))
    show getEntry (setEntry s.allocation ij.1 ij.2 _) i j = 0
    rw [getEntry_setEntry_ne _ _ _ _ _ _ hne]
    exact hzero i j hnotb

/-- Master lemma: from an invariant state the Vogel loop terminates
without an exception, re-establishes the invariant, and cannot grow the
basis beyond `m + n - 1` cells. -/
theorem vogelLoop_invariant (costs : List (List F)) (m n : Nat) :
    ∀ (fuel : Nat) (s : VogelState), VogelInv m n s →
    ∃ s', vogelLoop costs fuel s = .ok s' ∧ VogelInv m n s' ∧
      s'.basis.length ≤ max (m + n - 1) s.basis.length := by
  intro fuel
  induction fuel with
  | zero => exact fun s hs => ⟨s, rfl, hs, le_max_right _ _⟩
  | succ fuel ih =>
    intro s hs
    unfold vogelLoop
    by_cases hempty : (s.active_rows.isEmpty || s.active_cols.isEmpty) = true
    · rw [if_pos hempty]
      exact ⟨s, rfl, hs, le_max_right _ _⟩
    · rw [if_neg hempty]
      have har : s.active_rows ≠ [] := by
        intro hnil
        apply hempty
        simp [hnil]
      have hac : s.active_cols ≠ [] := by
        intro hnil
        apply hempty
        simp [hnil]
      dsimp only
      split
      · exact ⟨s, rfl, hs, le_max_right _ _⟩
      · obtain ⟨hi, hj⟩ := vogelSelect_mem costs s.active_rows s.active_cols har hac
        have hsi : (vogelSelect costs s.active_rows s.active_cols).1 < s.supply.length := by
          rw [hs.1]
          exact hs.2.2.1 _ hi
        have hdj : (vogelSelect costs s.active_rows s.active_cols).2 < s.demand.length := by
          rw [hs.2.1]
          exact hs.2.2.2.1 _ hj
        rw [show pyGetQ s.supply (vogelSelect costs s.active_rows s.active_cols).1 =
          .ok (s.supply.get ⟨_, hsi⟩) from dif_pos hsi]
        rw [show pyGetQ s.demand (vogelSelect costs s.active_rows s.active_cols).2 =
          .ok (s.demand.get ⟨_, hdj⟩) from dif_pos hdj]
        obtain ⟨hinv', hlen'⟩ := vogelNext_inv m n s hs _ _ _ hi hj
        obtain ⟨s', hloop, hinv'', hbound⟩ := ih _ hinv'
        refine ⟨s', hloop, hinv'', ?_⟩
        have hb : s.basis.length + s.active_rows.length + s.active_cols.length ≤ m + n :=
          hs.2.2.2.2.2.2.1
        have har1 : 1 ≤ s.active_rows.length := by
          cases hl : s.active_rows with
          | nil => exact absurd hl har
          | cons a t => simp
        have hac1 : 1 ≤ s.active_cols.length := by
          cases hl : s.active_cols with
          | nil => exact absurd hl hac
          | cons a t => simp
        rw [hlen'] at hbound
        have : s.basis.length + 1 ≤ m + n - 1 := by omega
        omega

/-- C10: for every problem with at least one supplier and one consumer,
finite non-negative supplies and demands, and an `m × n` cost matrix,
Vogel's `find_initial_bfs` succeeds and returns a `BFSolution` whose
basis is a list of pairwise-distinct cells of length at most
`m + n - 1`, and every allocation entry outside the basis is exactly 0. -/
theorem C10_vogel_basis_is_small_nodup_and_off_basis_zero
    (p : TLPProblem) (m n : Nat) (hm : 1 ≤ m) (_hn : 1 ≤ n)
    (hsl : p.supply.length = m) (hdl : p.demand.length = n)
    (hcl : p.costs.length = m) (hrect : ∀ r ∈ p.costs, r.length = n)
    (_hsup : ∀ x ∈ p.supply, (0 : F) ≤ x) (_hdem : ∀ x ∈ p.demand, (0 : F) ≤ x) :
    ∃ sol, find_initial_bfs p = .ok sol ∧ sol.basis.Nodup ∧
      sol.basis.length ≤ m + n - 1 ∧
      ∀ i j, (i, j) ∉ sol.basis → getEntry sol.allocation i j = 0 := by
  have hshape : npShape2 p.costs = .ok (m, n) := by
    unfold npShape2
    match hc : p.costs with
    | [] =>
      rw [hc] at hcl
      simp at hcl
      omega
    | r :: rest =>
      have hr : r.length = n := hrect r (by rw [hc]; simp)
      have hall : ((r :: rest).all fun row => decide (row.length = r.length)) = true := by
        rw [List.all_eq_true]
        intro row hrow
        rw [← hc] at hrow
        simp [hrect row hrow, hr]
      have hlen : (r :: rest).length = m := by rw [← hc]; exact hcl
      dsimp only
      rw [if_pos hall, hlen, hr]
  have hinit : VogelInv m n
      { supply := p.supply, demand := p.demand, allocation := zeros m n,
        basis := [], active_rows := List.range m, active_cols := List.range n } := by
    refine ⟨hsl, hdl, ?_, ?_, List.nodup_nil, ?_, ?_, ?_⟩
    · intro i hi
      exact List.mem_range.mp hi
    · intro j hj
      exact List.mem_range.mp hj
    · intro c hc
      cases hc
    · simp
    · intro i j _
      exact getEntry_zeros m n i j
  obtain ⟨s', hloop, hinv, hbound⟩ :=
    vogelLoop_invariant p.costs m n (m + n + 1) _ hinit
  have hfind : find_initial_bfs p = .ok
      { allocation := s'.allocation
        basis := s'.basis
        cost := F.sum (s'.basis.map (fun c =>
          getEntry s'.allocation c.1 c.2 * getEntry p.costs c.1 c.2)) } := by
    unfold find_initial_bfs
    rw [hshape]
    dsimp only
    rw [hloop]
  exact ⟨_, hfind, hinv.2.2.2.2.1, by simpa using hbound,
    fun i j hnot => hinv.2.2.2.2.2.2.2 i j hnot⟩

/-- Witness for C10 at the concrete problem `pC8` (m = 2, n = 3). -/
theorem C10_vogel_basis_witness :
    ∃ sol, find_initial_bfs pC8 = .ok sol ∧ sol.basis.Nodup ∧
      sol.basis.length ≤ 2 + 3 - 1 ∧
      ∀ i j, (i, j) ∉ sol.basis → getEntry sol.allocation i j = 0 :=
  C10_vogel_basis_is_small_nodup_and_off_basis_zero pC8 2 3 (by decide) (by decide)
    (by decide) (by decide) (by decide) (by decide) (by decide) (by decide)

/-! ## Lemmas about the masked reduced-cost scan (for C2) -/

theorem F.not_le (a b : F) : ¬ (a ≤ b) ↔ b < a := by
  show ¬ F.le a b ↔ F.lt b a
  unfold F.le F.lt
  exact Int.not_le

theorem MVal.mlt_iff_toT (a b : MVal) (ha : a ≠ MVal.nan) (hb : b ≠ MVal.nan) :
    MVal.mlt a b = true ↔ MVal.toT a < MVal.toT b := by
  cases a with
  | nan => exact absurd rfl ha
  | inf =>
    cases b with
    | nan => exact absurd rfl hb
    | inf => simp [MVal.mlt, MVal.toT]
    | val y => simp [MVal.mlt, MVal.toT]
  | val x =>
    cases b with
    | nan => exact absurd rfl hb
    | inf => simp [MVal.mlt, MVal.toT, WithTop.coe_lt_top]
    | val y => simp [MVal.mlt, MVal.toT, WithTop.coe_lt_coe, F.lt_iff]

theorem MVal.mmin_choice (a b : MVal) :
    MVal.mmin a b = a ∨ MVal.mmin a b = b := by
  cases a with
  | nan => simp [MVal.mmin]
  | inf => cases b <;> simp [MVal.mmin]
  | val x =>
    cases b with
    | nan => simp [MVal.mmin]
    | inf => simp [MVal.mmin]
    | val y =>
      rcases F.min_choice x y with h | h <;> simp [MVal.mmin, h]

theorem npMin_mem (l : List MVal) (mv : MVal) (h : npMin l = .ok mv) : mv ∈ l := by
  unfold npMin at h
  match l, h with
  | a :: rest, h =>
    simp only [Except.ok.injEq] at h
    rw [← h]
    exact foldl_best_mem MVal.mmin MVal.mmin_choice a rest

theorem argminFold_spec (l : List MVal) :
    ∀ (bi i : Nat) (bv : MVal), MVal.nan ∉ l → bv ≠ MVal.nan →
    (l.foldl argminStep (bi, i, bv)).2.2 ≠ MVal.nan ∧
    MVal.toT (l.foldl argminStep (bi, i, bv)).2.2 ≤ MVal.toT bv ∧
    (∀ x ∈ l, MVal.toT (l.foldl argminStep (bi, i, bv)).2.2 ≤ MVal.toT x) ∧
    (((l.foldl argminStep (bi, i, bv)).1 = bi ∧
        (l.foldl argminStep (bi, i, bv)).2.2 = bv) ∨
      ∃ t, t < l.length ∧ (l.foldl argminStep (bi, i, bv)).1 = i + t ∧
        (l.foldl argminStep (bi, i, bv)).2.2 = l.getD t MVal.inf) := by
  induction l with
  | nil =>
    intro bi i bv _ hbv
    exact ⟨hbv, le_refl _, by simp, Or.inl ⟨rfl, rfl⟩⟩
  | cons a rest ih =>
    intro bi i bv hl hbv
    have hanan : a ≠ MVal.nan := fun h => hl (by simp [h])
    have hrest : MVal.nan ∉ rest := fun h => hl (by simp [h])
    rw [List.foldl_cons]
    by_cases hlt : MVal.mlt a bv = true
    · rw [show argminStep (bi, i, bv) a = (i, i + 1, a) from by simp [argminStep, hlt]]
      obtain ⟨h1, h2, h3, h4⟩ := ih i (i + 1) a hrest hanan
      have hav : MVal.toT a < MVal.toT bv := (MVal.mlt_iff_toT a bv hanan hbv).mp hlt
      refine ⟨h1, le_trans h2 hav.le, ?_, ?_⟩
      · intro x hx
        rcases List.mem_cons.mp hx with rfl | hx
        · exact h2
        · exact h3 x hx
      · rcases h4 with ⟨hidx, hval⟩ | ⟨t, ht, hidx, hval⟩
        · exact Or.inr ⟨0, by simp, by omega, by simpa using hval⟩
        · exact Or.inr ⟨t + 1, by simpa using ht, by omega, by simpa using hval⟩
    · rw [show argminStep (bi, i, bv) a = (bi, i + 1, bv) from by simp [argminStep, hlt]]
      obtain ⟨h1, h2, h3, h4⟩ := ih bi (i + 1) bv hrest hbv
      have hav : MVal.toT bv ≤ MVal.toT a := by
        have hnot := (MVal.mlt_iff_toT a bv hanan hbv).not.mp (by simpa using hlt)
        exact not_lt.mp hnot
      refine ⟨h1, h2, ?_, ?_⟩
      · intro x hx
        rcases List.mem_cons.mp hx with rfl | hx
        · exact le_trans h2 hav
        · exact h3 x hx
      · rcases h4 with ⟨hidx, hval⟩ | ⟨t, ht, hidx, hval⟩
        · exact Or.inl ⟨hidx, hval⟩
        · exact Or.inr ⟨t + 1, by simpa using ht, by omega, by simpa using hval⟩

theorem npArgmin_spec (l : List MVal) (hl : MVal.nan ∉ l) (hne : l ≠ []) :
    npArgmin l < l.length ∧
    ∀ x ∈ l, MVal.toT (l.getD (npArgmin l) MVal.inf) ≤ MVal.toT x := by
  have hfind : l.findIdx? (fun a => decide (a = MVal.nan)) = none := by
    rw [List.findIdx?_eq_none_iff]
    intro x hx
    have hxn : x ≠ MVal.nan := fun h => hl (h ▸ hx)
    simpa using hxn
  unfold npArgmin
  rw [hfind]
  obtain ⟨h1, h2, h3, h4⟩ := argminFold_spec l 0 0 MVal.inf hl (by simp)
  rcases h4 with ⟨hidx, hval⟩ | ⟨t, ht, hidx, hval⟩
  · refine ⟨by rw [hidx]; exact List.length_pos.mpr hne, ?_⟩
    intro x hx
    have hxt : MVal.toT x = ⊤ := by
      have hx' := h3 x hx
      rw [hval] at hx'
      exact top_le_iff.mp (by simpa [MVal.toT] using hx')
    have hmem0 : l.getD 0 MVal.inf ∈ l := by
      cases l with
      | nil => exact absurd rfl hne
      | cons a t => simp
    have h0t : MVal.toT (l.getD 0 MVal.inf) = ⊤ := by
      have h0' := h3 _ hmem0
      rw [hval] at h0'
      exact top_le_iff.mp (by simpa [MVal.toT] using h0')
    rw [hidx, h0t, hxt]
  · refine ⟨by rw [hidx]; simpa using ht, ?_⟩
    intro x hx
    rw [hidx, Nat.zero_add, ← hval]
    exact h3 x hx

theorem rowMajorCells_eq (m n : Nat) :
    rowMajorCells m n = (List.range (m * n)).map (fun k => (k / n, k % n)) := by
  by_cases hn : n = 0
  · subst hn
    simp [rowMajorCells]
  · induction m with
    | zero => simp [rowMajorCells]
    | succ m ih =>
      unfold rowMajorCells
      rw [List.range_succ, List.flatMap_append]
      unfold rowMajorCells at ih
      rw [ih, Nat.succ_mul, List.range_add, List.map_append]
      congr 1
      simp only [List.flatMap_cons, List.flatMap_nil, List.append_nil]
      rw [List.map_map]
      apply List.map_congr_left
      intro x hx
      have hxn : x < n := List.mem_range.mp hx
      have hdiv : (m * n + x) / n = m := by
        rw [Nat.add_comm, Nat.mul_comm, Nat.add_mul_div_left _ _ (Nat.pos_of_ne_zero hn),
          Nat.div_eq_of_lt hxn, Nat.zero_add]
      have hmod : (m * n + x) % n = x := by
        rw [Nat.add_comm, Nat.mul_comm, Nat.add_mul_mod_self_left, Nat.mod_eq_of_lt hxn]
      simp [Function.comp, hdiv, hmod]

theorem maskedList_length (costs : List (List F)) (u v : List (Option F))
    (basis : List Cell) (m n : Nat) :
    (maskedList costs u v basis m n).length = m * n := by
  unfold maskedList
  rw [List.length_map, rowMajorCells_eq, List.length_map, List.length_range]

theorem maskedList_getD (costs : List (List F)) (u v : List (Option F))
    (basis : List Cell) (m n k : Nat) (hk : k < m * n) :
    (maskedList costs u v basis m n).getD k MVal.inf =
      maskedDelta costs u v basis (k / n) (k % n) := by
  unfold maskedList
  rw [rowMajorCells_eq, List.map_map, List.getD_eq_getElem?_getD, List.getElem?_map,
    List.getElem?_range hk]
  rfl

/-- C2 (amended): properties of the entering-cell selection.  Basic
cells are masked to `+infinity` and never selected; when no masked entry
is NaN (every non-basic cell has both potentials assigned) and the
optimality test fails, the selected entering cell is non-basic, has both
potentials assigned, and its reduced cost is below `-EPSILON`.  (The
companion counterexample shows the original claim's stronger statement —
that unassigned-potential cells are never selected — is false.) -/
theorem C2_entering_cell_nonbasic_and_improving (costs : List (List F))
    (u v : List (Option F)) (basis : List Cell) (m n : Nat)
    (hnonan : MVal.nan ∉ maskedList costs u v basis m n)
    (mv : MVal) (hmin : npMin (maskedList costs u v basis m n) = .ok mv)
    (hfail : mv.geNegEps = false) :
    (∀ c ∈ basis, maskedDelta costs u v basis c.1 c.2 = MVal.inf) ∧
    enteringCellOf costs u v basis m n ∉ basis ∧
    u.getD (enteringCellOf costs u v basis m n).1 none ≠ none ∧
    v.getD (enteringCellOf costs u v basis m n).2 none ≠ none ∧
    ∃ d, maskedDelta costs u v basis (enteringCellOf costs u v basis m n).1
        (enteringCellOf costs u v basis m n).2 = MVal.val d ∧ d < -EPSILON := by
  have hne : maskedList costs u v basis m n ≠ [] := by
    intro h
    rw [h] at hmin
    exact absurd hmin (by simp [npMin])
  have hmem : mv ∈ maskedList costs u v basis m n := npMin_mem _ _ hmin
  have hmvnan : mv ≠ MVal.nan := fun h => hnonan (h ▸ hmem)
  obtain ⟨d0, hd0⟩ : ∃ d0, mv = MVal.val d0 := by
    cases mv with
    | nan => exact absurd rfl hmvnan
    | inf => simp [MVal.geNegEps] at hfail
    | val x => exact ⟨x, rfl⟩
  have hd0lt : d0 < -EPSILON := by
    rw [hd0] at hfail
    simp [MVal.geNegEps] at hfail
    exact (F.not_le _ _).mp hfail
  obtain ⟨hklen, hkmin⟩ := npArgmin_spec _ hnonan hne
  have hkmn : npArgmin (maskedList costs u v basis m n) < m * n := by
    rw [← maskedList_length costs u v basis m n]
    exact hklen
  have hLk := maskedList_getD costs u v basis m n _ hkmn
  have hLkmem : (maskedList costs u v basis m n).getD
      (npArgmin (maskedList costs u v basis m n)) MVal.inf ∈
      maskedList costs u v basis m n := by
    rw [List.getD_eq_getElem?_getD, List.getElem?_eq_getElem hklen]
    exact List.getElem_mem _
  have hLknan : (maskedList costs u v basis m n).getD
      (npArgmin (maskedList costs u v basis m n)) MVal.inf ≠ MVal.nan :=
    fun h => hnonan (h ▸ hLkmem)
  have hle := hkmin mv hmem
  obtain ⟨d, hdval⟩ : ∃ d, (maskedList costs u v basis m n).getD
      (npArgmin (maskedList costs u v basis m n)) MVal.inf = MVal.val d := by
    cases hcase : (maskedList costs u v basis m n).getD
        (npArgmin (maskedList costs u v basis m n)) MVal.inf with
    | nan => exact absurd hcase hLknan
    | inf =>
      rw [hcase, hd0] at hle
      simp [MVal.toT] at hle
    | val x => exact ⟨x, rfl⟩
  have hdlt : d < -EPSILON := by
    rw [hdval, hd0] at hle
    simp only [MVal.toT, WithTop.coe_le_coe] at hle
    rw [F.lt_iff]
    have h2 := hd0lt
    rw [F.lt_iff] at h2
    exact lt_of_le_of_lt hle h2
  have hent : enteringCellOf costs u v basis m n =
      (npArgmin (maskedList costs u v basis m n) / n,
       npArgmin (maskedList costs u v basis m n) % n) := rfl
  rw [hLk] at hdval
  refine ⟨?_, ?_, ?_, ?_, ?_⟩
  · intro c hc
    unfold maskedDelta
    rw [if_pos (by simpa using hc)]
  · rw [hent]
    intro hmem2
    unfold maskedDelta at hdval
    rw [if_pos hmem2] at hdval
    exact absurd hdval (by simp)
  · rw [hent]
    unfold maskedDelta at hdval
    split at hdval
    · exact absurd hdval (by simp)
    · split at hdval
      · rename_i heq1 heq2
        rw [heq1]
        simp
      · exact absurd hdval (by simp)
  · rw [hent]
    unfold maskedDelta at hdval
    split at hdval
    · exact absurd hdval (by simp)
    · split at hdval
      · rename_i heq1 heq2
        rw [heq2]
        simp
      · exact absurd hdval (by simp)
  · exact ⟨d, by rw [hent]; exact hdval, hdlt⟩

/-- Witness for the amended C2 on a fully assigned 2×2 instance (the
costs of the repository's `test_max_iterations_exceeded`, whose basis
{(0,1),(1,0),(1,1)} yields potentials u=[0,-4], v=[12,10] and a unique
improving cell (0,0) with reduced cost -7). -/
theorem C2_entering_cell_witness :
    (∀ c ∈ ([(0, 1), (1, 0), (1, 1)] : List Cell),
      maskedDelta [[5, 10], [8, 6]] [some 0, some (-4)] [some 12, some 10]
        [(0, 1), (1, 0), (1, 1)] c.1 c.2 = MVal.inf) ∧
    enteringCellOf [[5, 10], [8, 6]] [some 0, some (-4)] [some 12, some 10]
      [(0, 1), (1, 0), (1, 1)] 2 2 ∉ ([(0, 1), (1, 0), (1, 1)] : List Cell) ∧
    ([some 0, some (-4)] : List (Option F)).getD
      (enteringCellOf [[5, 10], [8, 6]] [some 0, some (-4)] [some 12, some 10]
        [(0, 1), (1, 0), (1, 1)] 2 2).1 none ≠ none ∧
    ([some 12, some 10] : List (Option F)).getD
      (enteringCellOf [[5, 10], [8, 6]] [some 0, some (-4)] [some 12, some 10]
        [(0, 1), (1, 0), (1, 1)] 2 2).2 none ≠ none ∧
    ∃ d, maskedDelta [[5, 10], [8, 6]] [some 0, some (-4)] [some 12, some 10]
        [(0, 1), (1, 0), (1, 1)]
        (enteringCellOf [[5, 10], [8, 6]] [some 0, some (-4)] [some 12, some 10]
          [(0, 1), (1, 0), (1, 1)] 2 2).1
        (enteringCellOf [[5, 10], [8, 6]] [some 0, some (-4)] [some 12, some 10]
          [(0, 1), (1, 0), (1, 1)] 2 2).2 = MVal.val d ∧ d < -EPSILON :=
  C2_entering_cell_nonbasic_and_improving [[5, 10], [8, 6]]
    [some 0, some (-4)] [some 12, some 10] [(0, 1), (1, 0), (1, 1)] 2 2
    (by decide) (MVal.val (-7)) (by decide) (by decide)

/-! ## Claim theorems -/

/-- C9: for every `TLPResult` value, regardless of its status — including
ERROR and INFEASIBLE results — the accessor `is_optimal` returns the
constant `SolutionStatus.OPTIMAL` (a truthy value) rather than comparing
against the result's own status; it never evaluates to a falsy value. -/
theorem C9_is_optimal_is_the_constant_OPTIMAL (r : TLPResult) :
    r.is_optimal = SolutionStatus.OPTIMAL ∧ r.is_optimal.pyTruthy = true :=
  ⟨rfl, rfl⟩

/-- C8: on supply=[10,20], demand=[15,5,10], costs=[[2,3,1],[4,1,5]],
`find_initial_bfs` returns allocation [[0,0,10],[15,5,0]], cached cost
75.0, and a basis whose set of cells is {(1,1),(1,0),(0,2)}. -/
theorem C8_vogel_literal_example :
    find_initial_bfs pC8 =
      .ok { allocation := [[0, 0, 10], [15, 5, 0]]
            basis := [(0, 2), (1, 0), (1, 1)]
            cost := 75 } ∧
    ([(0, 2), (1, 0), (1, 1)] : List Cell).toFinset =
      ([(1, 1), (1, 0), (0, 2)] : List Cell).toFinset := by
  constructor
  · decide
  · decide

/-- Every `Except.ok` result of the MODI loop has status `optimal` or
`error` (the loop's only returns are the optimality exit, the
cycle-failure exit and the iteration-budget exit). -/
theorem modiLoop_ok_status (maxIter : Nat) (costs : List (List F)) (m n : Nat) :
    ∀ (fuel : Nat) (allocation : List (List F)) (basis : List Cell) (r : TLPResult),
    modiLoop maxIter costs m n fuel allocation basis = .ok r →
    r.status = SolutionStatus.OPTIMAL.value ∨ r.status = SolutionStatus.ERROR.value := by
  intro fuel
  induction fuel with
  | zero =>
    intro allocation basis r h
    simp only [modiLoop, Except.ok.injEq] at h
    right
    rw [← h]
  | succ fuel ih =>
    intro allocation basis r h
    unfold modiLoop at h
    split at h
    · exact absurd h (by simp)
    · split at h
      · split at h
        · exact absurd h (by simp)
        · split at h
          · simp only [Except.ok.injEq] at h
            left
            rw [← h]
          · dsimp only at h
            split at h
            · exact absurd h (by simp)
            · simp only [Except.ok.injEq] at h
              right
              rw [← h]
            · split at h
              · exact absurd h (by simp)
              · exact ih _ _ _ h
      · exact absurd h (by simp)

/-- `solve_from_bfs` only ever reports `optimal` or `error`. -/
theorem solve_from_bfs_status (max_iterations : Nat) (problem : TLPProblem)
    (initial_solution : BFSolution) :
    (solve_from_bfs max_iterations problem initial_solution).status =
      SolutionStatus.OPTIMAL.value ∨
    (solve_from_bfs max_iterations problem initial_solution).status =
      SolutionStatus.ERROR.value := by
  unfold solve_from_bfs
  cases h : modiCore max_iterations problem initial_solution with
  | error e => right; rfl
  | ok r =>
    unfold modiCore at h
    split at h
    · exact absurd h (by simp)
    · split at h
      · exact modiLoop_ok_status _ _ _ _ _ _ _ _ h
      · exact absurd h (by simp)

/-- C6 (amended): `find_initial_bfs` always returns a truthy
`BFSolution` when it does not raise, so the INFEASIBLE branch of `solve`
is dead code: for every problem, the status of `solve`'s result is
`optimal` or `error`, never `infeasible`. -/
theorem C6_solve_status_is_optimal_or_error (problem : TLPProblem) :
    (solve problem).status = SolutionStatus.OPTIMAL.value ∨
    (solve problem).status = SolutionStatus.ERROR.value := by
  unfold solve
  cases h : solveCore problem with
  | error e => right; rfl
  | ok r =>
    unfold solveCore runPipeline at h
    split at h
    · exact absurd h (by simp)
    · split at h
      · simp [BFSolution.pyTruthy] at *
      · simp only [Except.ok.injEq] at h
        rw [← h]
        exact solve_from_bfs_status _ _ _

/-- C5: `solve` and `solve_from_bfs` are total and route every internal
fault into an `ERROR` result: whenever the body inside the `try` raises
(modelled by `solveCore` / `modiCore` returning `.error e`), the public
entry point returns a result with status `error` and a non-empty message
("Solver error: ..." / "Error in MODI method: ..."); when the body does
not raise, its result is returned unchanged. -/
theorem C5_faults_are_caught_as_ERROR_results (problem : TLPProblem)
    (initial_solution : BFSolution) (e : String) :
    (solveCore problem = .error e →
      solve problem = { status := SolutionStatus.ERROR.value
                        error_message := some ("Solver error: " ++ e) } ∧
      0 < ("Solver error: " ++ e).length) ∧
    (∀ r, solveCore problem = .ok r → solve problem = r) ∧
    (modiCore 1000 problem initial_solution = .error e →
      solve_from_bfs 1000 problem initial_solution =
        { status := SolutionStatus.ERROR.value
          error_message := some ("Error in MODI method: " ++ e) } ∧
      0 < ("Error in MODI method: " ++ e).length) ∧
    (∀ r, modiCore 1000 problem initial_solution = .ok r →
      solve_from_bfs 1000 problem initial_solution = r) := by
  refine ⟨fun h => ⟨by unfold solve; rw [h], ?_⟩,
    fun r h => by unfold solve; rw [h],
    fun h => ⟨by unfold solve_from_bfs; rw [h], ?_⟩,
    fun r h => by unfold solve_from_bfs; rw [h]⟩
  · have hl : ("Solver error: " ++ e).length = "Solver error: ".length + e.length :=
      String.length_append _ _
    have : "Solver error: ".length = 14 := rfl
    omega
  · have hl : ("Error in MODI method: " ++ e).length =
      "Error in MODI method: ".length + e.length := String.length_append _ _
    have : "Error in MODI method: ".length = 22 := rfl
    omega

/-- Witness for C5 at the concrete raising input `pEmpty` (shape
unpacking raises inside `find_initial_bfs`). -/
theorem C5_faults_witness :
    solve pEmpty = { status := SolutionStatus.ERROR.value
                     error_message := some ("Solver error: " ++
                       "not enough values to unpack (expected 2, got 1)") } ∧
    0 < ("Solver error: " ++ "not enough values to unpack (expected 2, got 1)").length :=
  (C5_faults_are_caught_as_ERROR_results pEmpty
    { allocation := [], basis := [], cost := 0 }
    "not enough values to unpack (expected 2, got 1)").1 (by decide)

/-- C7: on an unbalanced problem the solver runs the BFS/optimizer
pipeline on the derived problem built by `_balance_problem`, which
appends exactly one dummy consumer (zero-cost column, demand = deficit)
when supply exceeds demand and symmetrically one dummy supplier
otherwise; the derived problem is balanced (its totals agree exactly),
and the original problem's supplies, demands and cost rows reappear
untouched in the derived problem (the embedding is pure, so the caller's
`Problem` value itself cannot change). -/
theorem C7_unbalanced_problems_are_balanced_first (problem : TLPProblem)
    (h : problem.is_balanced = false) :
    solveCore problem = runPipeline (balance_problem problem) ∧
    (balance_problem problem).is_balanced = true ∧
    (problem.total_demand < problem.total_supply →
      balance_problem problem =
        { supply := problem.supply
          demand := problem.demand ++ [problem.total_supply - problem.total_demand]
          costs := problem.costs.map (fun row => row ++ [0]) } ∧
      (balance_problem problem).num_consumers = problem.num_consumers + 1 ∧
      (balance_problem problem).num_suppliers = problem.num_suppliers) ∧
    (¬ problem.total_demand < problem.total_supply →
      balance_problem problem =
        { supply := problem.supply ++ [problem.total_demand - problem.total_supply]
          demand := problem.demand
          costs := problem.costs ++ [List.replicate problem.num_consumers (0 : F)] } ∧
      (balance_problem problem).num_suppliers = problem.num_suppliers + 1 ∧
      (balance_problem problem).num_consumers = problem.num_consumers) := by
  refine ⟨by unfold solveCore; rw [h]; rfl, ?_, ?_, ?_⟩
  · unfold TLPProblem.is_balanced balance_problem
    rw [decide_eq_true_iff]
    split
    · show F.abs (TLPProblem.total_supply _ - TLPProblem.total_demand _) < _
      unfold TLPProblem.total_supply TLPProblem.total_demand
      simp only
      rw [F.lt_iff, F.toRat_abs, F.sum_append_singleton, F.toRat_sub, F.toRat_add,
        F.toRat_sub]
      have : (⟨1, 6⟩ : F).toRat = 1 / 10 ^ 6 := by unfold F.toRat; norm_num
      rw [this]
      norm_num
    · show F.abs (TLPProblem.total_supply _ - TLPProblem.total_demand _) < _
      unfold TLPProblem.total_supply TLPProblem.total_demand
      simp only
      rw [F.lt_iff, F.toRat_abs, F.sum_append_singleton, F.toRat_sub, F.toRat_add,
        F.toRat_sub]
      have : (⟨1, 6⟩ : F).toRat = 1 / 10 ^ 6 := by unfold F.toRat; norm_num
      rw [this]
      norm_num
  · intro hlt
    refine ⟨by unfold balance_problem; rw [if_pos hlt], ?_, ?_⟩
    · unfold balance_problem
      rw [if_pos hlt]
      show (problem.demand ++ [_]).length = problem.demand.length + 1
      simp
    · unfold balance_problem
      rw [if_pos hlt]
      rfl
  · intro hge
    refine ⟨by unfold balance_problem; rw [if_neg hge], ?_, ?_⟩
    · unfold balance_problem
      rw [if_neg hge]
      show (problem.supply ++ [_]).length = problem.supply.length + 1
      simp
    · unfold balance_problem
      rw [if_neg hge]
      rfl

/-- Witness for C7 at the concrete unbalanced problem `pUnbal`
(total supply 30, total demand 20: a dummy consumer is appended). -/
theorem C7_unbalanced_witness :
    solveCore pUnbal = runPipeline (balance_problem pUnbal) ∧
    (balance_problem pUnbal).is_balanced = true ∧
    (pUnbal.total_demand < pUnbal.total_supply →
      balance_problem pUnbal =
        { supply := pUnbal.supply
          demand := pUnbal.demand ++ [pUnbal.total_supply - pUnbal.total_demand]
          costs := pUnbal.costs.map (fun row => row ++ [0]) } ∧
      (balance_problem pUnbal).num_consumers = pUnbal.num_consumers + 1 ∧
      (balance_problem pUnbal).num_suppliers = pUnbal.num_suppliers) ∧
    (¬ pUnbal.total_demand < pUnbal.total_supply →
      balance_problem pUnbal =
        { supply := pUnbal.supply ++ [pUnbal.total_demand - pUnbal.total_supply]
          demand := pUnbal.demand
          costs := pUnbal.costs ++ [List.replicate pUnbal.num_consumers (0 : F)] } ∧
      (balance_problem pUnbal).num_suppliers = pUnbal.num_suppliers + 1 ∧
      (balance_problem pUnbal).num_consumers = pUnbal.num_consumers) :=
  C7_unbalanced_problems_are_balanced_first pUnbal (by decide)

/-- C1 (code bug): on the balanced problem `pCons`, `solve` returns an
OPTIMAL result whose solution matrix does not conserve flow: row 0 of
the solution sums to 5 while `supply[0] = 0`, and column 0 sums to 9
while `demand[0] = 4` — both off by far more than the claimed `1e-4`
absolute tolerance.  (The degenerate pivot subtracts the fallback
`theta = 5` from the zero-allocation basis cell (0,0) and then snaps the
resulting `-5` to `0`, silently adding 5 units to row 0 and column 0.) -/
theorem C1_optimal_result_breaks_conservation :
    pCons.is_balanced = true ∧
    (solve pCons).status = SolutionStatus.OPTIMAL.value ∧
    (solve pCons).solution = some solCons ∧
    pCons.supply.getD 0 0 = 0 ∧ rowSum solCons 0 = 5 ∧
    pCons.demand.getD 0 0 = 4 ∧ colSum solCons 0 = 9 ∧
    (⟨1, 4⟩ : F) ≤ F.abs (rowSum solCons 0 - pCons.supply.getD 0 0) ∧
    (⟨1, 4⟩ : F) ≤ F.abs (colSum solCons 0 - pCons.demand.getD 0 0) := by
  refine ⟨by decide, by decide, by decide, by decide, by decide, by decide,
    by decide, by decide, by decide⟩

/-- C3 (code bug): a pivot update along a cycle produced by the cycle
search, applied to a non-negative allocation matrix, can leave a
negative entry: with allocation [[0,5],[0,7]] and the discovered cycle
for entering cell (0,0), the degenerate fallback takes `theta = 5` and
drives the `-`-cell (1,0) from 0 to -5; only the first `-`-cell below
`EPSILON` (here (0,1)) is snapped to zero, so (1,0) stays negative. -/
theorem C3_pivot_update_leaves_negative_entry :
    (allocNeg.all (fun row => row.all (fun x => decide ((0 : F) ≤ x)))) = true ∧
    find_cycle (0, 0) basisNeg 2 2 = .ok (some cycleNeg) ∧
    update_solution allocNeg basisNeg cycleNeg =
      .ok ([[5, 0], [-5, 12]], [(1, 1), (1, 0), (0, 0)]) ∧
    getEntry [[5, 0], [-5, 12]] 1 0 < 0 := by
  refine ⟨by decide, by decide, by decide, by decide⟩

/-- C4 (code bug): the cycle search can return a cycle of odd length
whose row/column alternation breaks across the closing edge: for
entering cell (0,0) and the basis {(0,1),(1,1),(1,2),(0,2)} on a 2×3
grid it returns [(0,0),(0,1),(1,1),(1,2),(0,2),(0,0)] — five distinct
cells (odd, not even), and both the closing step (0,2)→(0,0) and the
first step (0,0)→(0,1) move along row 0, so the steps do not strictly
alternate around the whole cycle. -/
theorem C4_cycle_search_returns_odd_cycle :
    find_cycle (0, 0) basisOdd 2 3 = .ok (some cycleOdd) ∧
    cycleOdd.dropLast.length = 5 ∧ cycleOdd.dropLast.length % 2 = 1 ∧
    cycleOdd.headD (9, 9) = cycleOdd.getLastD (8, 8) ∧
    (cycleOdd.getD 4 (9, 9)).1 = (cycleOdd.getD 5 (8, 8)).1 ∧
    (cycleOdd.getD 0 (9, 9)).1 = (cycleOdd.getD 1 (8, 8)).1 := by
  refine ⟨by decide, by decide, by decide, by decide, by decide, by decide⟩

/-- C2 (counterexample): in the first iteration of `solve_from_bfs` on
`pDisc` with the disconnected basis {(0,0),(1,1)}, the potentials of
row 1 and column 1 stay unassigned (NaN); the reduced cost of the
non-basic cell (0,1) is therefore NaN, the optimality test fails
(`NaN >= -EPSILON` is false) and `np.argmin` selects (0,1) — a cell
whose column potential is unassigned — as the entering cell, the exact
opposite of "treated as +infinity, never selected". -/
theorem C2_unassigned_potential_cell_is_selected :
    calculate_potentials pDisc.costs (pySet bfsDisc.basis) 2 2 =
      .ok ([some 0, none], [some 2, none]) ∧
    ([some 2, none] : List (Option F)).getD 1 none = none ∧
    maskedDelta pDisc.costs [some 0, none] [some 2, none] (pySet bfsDisc.basis) 0 1 =
      MVal.nan ∧
    enteringCellOf pDisc.costs [some 0, none] [some 2, none] (pySet bfsDisc.basis) 2 2 =
      (0, 1) ∧
    decide ((0, 1) ∈ pySet bfsDisc.basis) = false ∧
    solve_from_bfs 1000 pDisc bfsDisc =
      { status := SolutionStatus.ERROR.value
        error_message := some "Could not find cycle for improvement" } := by
  refine ⟨by decide, by decide, by decide, by decide, by decide, by decide⟩

/-- C6 (counterexample): on the structurally malformed problem with
empty supply and demand arrays, BFS construction raises while unpacking
`m, n = costs.shape` (there is no falsy "no solution" return), so
`solve` returns an ERROR result — not the claimed INFEASIBLE with
message "No initial BFS found". -/
theorem C6_empty_problem_gives_ERROR_not_INFEASIBLE :
    solve pEmpty =
      { status := SolutionStatus.ERROR.value
        error_message :=
          some "Solver error: not enough values to unpack (expected 2, got 1)" } ∧
    ((solve pEmpty).status == SolutionStatus.INFEASIBLE.value) = false ∧
    ((solve pEmpty).error_message == some "No initial BFS found") = false := by
  refine ⟨by decide, by decide, by decide⟩

end TLP
